import Mathlib

/-!
# imagemagickd: URL parsing, cache fill, eviction and transform invocation

A shallow embedding of `imagemagickd.go`.  Go strings are byte sequences, so a
`GoString` is a list of bytes.  The functions of the program (`parseURL`,
`checkCache`, `server`, the methods of `byModTimeDesc`) are translated
statement by statement; a run-time panic is a result of its own (`Run.panics`).
The Go standard-library functions the program calls (`strings.SplitN`,
`strings.Index`, `strings.Replace`, `strconv.Atoi`, `url.QueryEscape`,
`regexp.Split` for the expression `\s+`, `sort.Sort`, `http.Error`) are
modelled after their documented behaviour.

What lies outside the program is given to `server` as data: the cache
directory as a list of files (`Store`), and the answers of the operating
system, the network and the external tool as an `Env`.  The handler returns
the response, the cache directory it leaves and the list of the operations it
performed.  The goroutine started by `go checkCache()` is recorded as an
operation; its effect on the directory comes after the handler and is the
subject of `checkCache` alone.  `int64` arithmetic wraps around (`wrap64`).
-/

namespace Imagemagickd

/-! ## Go strings -/

/-- One byte of a Go string. -/
abbrev Byte := Fin 256

/-- A Go `string`: an immutable sequence of bytes. -/
abbrev GoString := List Byte

/-- The byte of an ASCII character literal. -/
def byte (c : Char) : Byte := ⟨c.toNat % 256, Nat.mod_lt _ (by decide)⟩

/-- The Go string written as an ASCII literal. -/
def ascii (s : String) : GoString := s.toList.map byte

/-- Go `strings.Index(s, sep)` for a one-byte separator: the position of the
first occurrence, `none` standing for `-1`. -/
def Index (s : GoString) (sep : Byte) : Option Nat :=
  match s with
  | [] => none
  | c :: rest => if c = sep then some 0 else (Index rest sep).map (· + 1)

/-- Go `strings.SplitN(s, sep, n)` for a one-byte separator and `n ≥ 0`: at
most `n` substrings, the last one being the unsplit remainder. -/
def SplitN (s : GoString) (sep : Byte) : Nat → List GoString
  | 0 => []
  | 1 => [s]
  | n + 2 =>
    match Index s sep with
    | none => [s]
    | some m => s.take m :: SplitN (s.drop (m + 1)) sep (n + 1)

/-- Value of a non-empty string of decimal digits, as `strconv` reads it. -/
def digitsVal : GoString → Nat → Option Nat
  | [], _ => none
  | [c], acc => if 48 ≤ c.val ∧ c.val ≤ 57 then some (acc * 10 + (c.val - 48)) else none
  | c :: d :: rest, acc =>
    if 48 ≤ c.val ∧ c.val ≤ 57 then digitsVal (d :: rest) (acc * 10 + (c.val - 48)) else none

/-- Go `strconv.Atoi(s)` with a 64-bit `int`: an optional sign followed by one
or more decimal digits, the value within `[-2^63, 2^63 - 1]`; `none` is a
non-nil error (syntax or range). -/
def Atoi (s : GoString) : Option Int :=
  match s with
  | [] => none
  | c :: rest =>
    if c = byte '-' then
      match digitsVal rest 0 with
      | some n => if n ≤ 2 ^ 63 then some (-(n : Int)) else none
      | none => none
    else
      match digitsVal (if c = byte '+' then rest else s) 0 with
      | some n => if n < 2 ^ 63 then some (n : Int) else none
      | none => none

/-- Go `url.shouldEscape(c, encodeQueryComponent)`: only ASCII letters, digits
and `-`, `_`, `.`, `~` are left alone. -/
def shouldEscape (c : Byte) : Bool :=
  !((97 ≤ c.val ∧ c.val ≤ 122) ∨ (65 ≤ c.val ∧ c.val ≤ 90) ∨ (48 ≤ c.val ∧ c.val ≤ 57)
    ∨ c = byte '-' ∨ c = byte '_' ∨ c = byte '.' ∨ c = byte '~')

/-- The digit `"0123456789ABCDEF"[n]` of Go's `upperhex` table. -/
def upperhex (n : Nat) : Byte :=
  (ascii "0123456789ABCDEF").getD n 0

/-- Go `url.QueryEscape(s)`: a space becomes `+`, every other byte that must be
escaped becomes `%XX` in upper-case hexadecimal. -/
def QueryEscape : GoString → GoString
  | [] => []
  | c :: rest =>
    if shouldEscape c then
      if c = byte ' ' then byte '+' :: QueryEscape rest
      else byte '%' :: upperhex (c.val / 16) :: upperhex (c.val % 16) :: QueryEscape rest
    else c :: QueryEscape rest

/-! ## The response writer -/

/-- The part of an `http.ResponseWriter` the handler drives: the status code
once the header has been written, the calls of `Header().Set` in order, and
the body. -/
structure ResponseWriter where
  status : Option Nat
  headers : List (GoString × GoString)
  body : GoString
deriving DecidableEq, Repr

/-- A fresh response on which nothing has been written. -/
def ResponseWriter.fresh : ResponseWriter := ⟨none, [], []⟩

/-- Go `http.Error(w, msg, code)`: sets the plain-text headers, writes the
header with `code` (a header already written stays as it is) and prints `msg`
on a line.  The code is recorded as given: a code below 100 or above 999, which
`WriteHeader` of later Go versions refuses, is not told apart here, and the
statements below that depend on the code keep to the codes from 100 to 999. -/
def httpError (w : ResponseWriter) (msg : GoString) (code : Nat) : ResponseWriter :=
  { status := some (w.status.getD code)
    headers := w.headers ++ [(ascii "Content-Type", ascii "text/plain; charset=utf-8"),
      (ascii "X-Content-Type-Options", ascii "nosniff")]
    body := w.body ++ msg ++ ascii "\n" }

/-! ## parseURL -/

/-- Result of running Go code that may crash with a run-time panic. -/
inductive Run (α : Type) where
  | returns (a : α)
  | panics (reason : String)
deriving DecidableEq, Repr

/-- The named results of `parseURL`, with the response writer it wrote to. -/
structure ParseOut where
  fn : GoString
  width : GoString
  height : GoString
  srcPath : GoString
  srcFileName : GoString
  err : Option String
  w : ResponseWriter
deriving DecidableEq, Repr

/-- The function `parseURL`, on the request URI `path` and the flag `cacheDir`. -/
def parseURL (cacheDir : GoString) (w : ResponseWriter) (path : GoString) : Run ParseOut :=
  match path with
  | [] => .panics "index out of range [0] with length 0"
  | c :: rest =>
    if c ≠ byte '/' then
      .returns ⟨[], [], [], [], [], none,
        httpError w (ascii "Path should start with /") 400⟩
    else
      let parts := SplitN rest (byte '/') 4
      match parts.get? 0 with
      | none => .panics "index out of range [0]"
      | some fn =>
      match parts.get? 1 with
      | none => .panics "index out of range [1]"
      | some width =>
      match Atoi width with
      | none => .returns ⟨fn, width, [], [], [], some "strconv.Atoi", w⟩
      | some widthNum =>
      if widthNum ≤ 0 ∨ 5000 < widthNum then
        .returns ⟨fn, width, [], [], [], some "invalid error width",
          httpError w (ascii "Width not specified or invalid") 400⟩
      else
      match parts.get? 2 with
      | none => .panics "index out of range [2]"
      | some height =>
      match Atoi height with
      | none => .returns ⟨fn, width, height, [], [], some "strconv.Atoi", w⟩
      | some heightNum =>
      if heightNum ≤ 0 ∨ 5000 < heightNum then
        .returns ⟨fn, width, height, [], [], some "invalid error height",
          httpError w (ascii "Height not specified or invalid") 400⟩
      else
      match parts.get? 3 with
      | none => .panics "index out of range [3]"
      | some srcPath =>
      let index := (Index srcPath (byte '?')).getD srcPath.length
      .returns ⟨fn, width, height, srcPath,
        cacheDir ++ ascii "/" ++ QueryEscape (srcPath.take index), none, w⟩

/-! ## checkCache -/

/-- The part of an `os.FileInfo` that `checkCache` reads: `Name()`, `Size()`
(an `int64`) and `ModTime()`, kept as whole seconds since the Unix epoch. -/
structure FileInfo where
  name : GoString
  size : Int
  modTime : Int
deriving DecidableEq, Repr

/-- Go `Time.Second()`: the second offset within the minute, in `[0, 59]`
(zone offsets being whole minutes). -/
def FileInfo.second (f : FileInfo) : Int := f.modTime % 60

/-- The method `byModTimeDesc.Less`, on the two elements it indexes. -/
def Less (fi fj : FileInfo) : Bool := decide (fi.second > fj.second)

/-- Two's-complement wrap-around of an `int64` result. -/
def wrap64 (x : Int) : Int := (x + 2 ^ 63) % 2 ^ 64 - 2 ^ 63

/-- Inner loop of Go's `insertionSort`,
`for j := i; j > a && data.Less(j, j-1); j-- { data.Swap(j, j-1) }`:
the new element `x` moves left past every element it is `Less` than.  The
sorted prefix is held last-element-first. -/
def sinkLeft (x : FileInfo) : List FileInfo → List FileInfo
  | [] => [x]
  | e :: rest => if Less x e then e :: sinkLeft x rest else x :: e :: rest

/-- Go `sort.Sort(byModTimeDesc(infos))`, as the insertion sort the library
runs on short slices.  `sort.Sort` promises an arrangement of the same elements
that is ordered by `Less`; it does not promise stability. -/
def sortSort (infos : List FileInfo) : List FileInfo :=
  (infos.foldl (fun acc x => sinkLeft x acc) []).reverse

/-- First loop of `checkCache`: `sum = sum + info.Size()` over the listing. -/
def sumSizes : List FileInfo → Int → Int
  | [], sum => sum
  | info :: rest, sum => sumSizes rest (wrap64 (sum + info.size))

/-- What one run of `checkCache` did: the entries handed to `os.Remove`, in
order, and the entries left in place. -/
structure Evicted where
  removed : List FileInfo
  kept : List FileInfo
deriving DecidableEq, Repr

/-- Second loop of `checkCache`,
`for i := 0; *cacheSize < sum; i++ { sum -= infos[i].Size(); os.Remove(...) }`,
on the entries from index `i` on. -/
def removeLoop (cacheSize : Int) : List FileInfo → Int → Run Evicted
  | [], sum =>
    if cacheSize < sum then .panics "index out of range" else .returns ⟨[], []⟩
  | info :: rest, sum =>
    if cacheSize < sum then
      match removeLoop cacheSize rest (wrap64 (sum - info.size)) with
      | .returns r => .returns ⟨info :: r.removed, r.kept⟩
      | .panics reason => .panics reason
    else .returns ⟨[], info :: rest⟩

/-- The body of `checkCache` after the slice has been sorted. -/
def evictSorted (cacheSize : Int) (sorted : List FileInfo) : Run Evicted :=
  removeLoop cacheSize sorted (sumSizes sorted 0)

/-- The function `checkCache`, on the flag `cacheSize` and the listing that
`ioutil.ReadDir(*cacheDir)` returned. -/
def checkCache (cacheSize : Int) (infos : List FileInfo) : Run Evicted :=
  evictSorted cacheSize (sortSort infos)

/-- Exact total size of a list of entries. -/
def totalSize (infos : List FileInfo) : Int := (infos.map (·.size)).sum

/-! ## Building the command line -/

/-- Go `strings.Replace(s, old, new, -1)` for a non-empty `old`: every
non-overlapping occurrence, left to right.  `skip` counts the bytes of a
replaced occurrence that are still to be passed over. -/
def replaceFrom (old new : GoString) : GoString → Nat → GoString
  | [], _ => []
  | _ :: rest, skip + 1 => replaceFrom old new rest skip
  | c :: rest, 0 =>
    if old.isPrefixOf (c :: rest) then new ++ replaceFrom old new rest (old.length - 1)
    else c :: replaceFrom old new rest 0

/-- Go `strings.Replace(s, old, new, -1)` for a non-empty `old`. -/
def Replace (s old new : GoString) : GoString := replaceFrom old new s 0

/-- The class `\s` of Go regular expressions: tab, line feed, form feed,
carriage return and space. -/
def isSpace (c : Byte) : Bool :=
  c.val = 9 ∨ c.val = 10 ∨ c.val = 12 ∨ c.val = 13 ∨ c.val = 32

/-- Whether the string begins with a byte of class `\s`. -/
def startsWithSpace : GoString → Bool
  | [] => false
  | c :: _ => isSpace c

/-- Go `regexp.MustCompile("\\s+").Split(s, -1)`: the substrings between the
maximal runs of `\s` bytes.  The empty string gives one empty substring, and
a run at the very start or end of `s` leaves an empty substring there. -/
def regexpSplit : GoString → List GoString
  | [] => [[]]
  | c :: rest =>
    match regexpSplit rest with
    | [] => [[c]]
    | p :: ps =>
      if isSpace c then
        if startsWithSpace rest then p :: ps else [] :: p :: ps
      else (c :: p) :: ps

/-- The loop of `server` over `opts[fn]`: each template with `{{width}}` and
then `{{height}}` replaced, split at white space, appended in order. -/
def expandTemplates (width height : GoString) : List GoString → List GoString
  | [] => []
  | cmdStr :: rest =>
    regexpSplit (Replace (Replace cmdStr (ascii "{{width}}") width) (ascii "{{height}}") height)
      ++ expandTemplates width height rest

/-- The slice `cmdRet` that `server` passes to `exec.Command("env", cmdRet...)`. -/
def cmdRet (templates : List GoString) (width height srcFileName tmp : GoString) :
    List GoString :=
  [ascii "OMP_NUM_THREADS=1", ascii "convert"] ++ expandTemplates width height templates
    ++ [srcFileName, tmp]

/-! ## The handler -/

/-- What `http.Get` gives back: an error, or a response with its status code,
status line text and the body as delivered. -/
inductive GetResult where
  | failed (err : GoString)
  | response (statusCode : Nat) (status : GoString) (body : GoString)
deriving DecidableEq, Repr

/-- The surroundings of one request: the flags and the catalog, and what the
operating system, the network and the external tool answer. -/
structure Env where
  /-- The flag `cachedir`. -/
  cacheDir : GoString
  /-- The catalog `opts`, a map from name to templates. -/
  opts : List (GoString × List GoString)
  /-- An error of `os.OpenFile` on a name that does not exist yet, if any. -/
  openExclErr : GoString → Option GoString
  /-- The answer of `http.Get`. -/
  httpGet : GoString → GetResult
  /-- The name `ioutil.TempFile` created, or its error. -/
  tempFile : Except GoString GoString
  /-- The outcome of `exec.Command("env", args...).Run()`: the error, or the
  bytes the tool left in the scratch file. -/
  run : List GoString → Except GoString GoString
  /-- An error of `os.Open` on the file to serve, if any. -/
  openErr : GoString → Option GoString
  /-- The formatted time `time.Now().UTC().Format(http.TimeFormat)`. -/
  now : GoString

/-- The cache directory: file name and content of each entry. -/
abbrev Store := List (GoString × GoString)

/-- The operations the handler performs outside itself, in order. -/
inductive Op where
  | stat (name : GoString)
  | openExcl (name : GoString)
  | get (url : GoString)
  | copy (name : GoString)
  | goCheckCache
  | tempFile
  | exec (args : List GoString)
  | open_ (name : GoString)
  | removeTemp (name : GoString)
deriving DecidableEq, Repr

/-- What the handler leaves behind: the response, the cache directory and the
operations performed. -/
structure ServerOut where
  w : ResponseWriter
  store : Store
  ops : List Op
deriving DecidableEq, Repr

/-- Lines 198 to 212 of `server`: open `targetName`, set the headers and copy
the file to the response. -/
def serveFile (env : Env) (w : ResponseWriter) (targetName content : GoString) :
    ResponseWriter :=
  match env.openErr targetName with
  | some e => httpError w (ascii "Upstream failed open: " ++ e) 502
  | none =>
    { status := some (w.status.getD 200)
      headers := w.headers ++ [(ascii "Content-Type", ascii "image/jpeg"),
        (ascii "Last-Modified", env.now),
        (ascii "Content-Length", ascii (Nat.repr content.length))]
      body := w.body ++ content }

/-- Lines 168 to 212 of `server`: the scratch file, the external tool and the
answer, after the operations `ops` already performed. -/
def transform (env : Env) (store : Store) (p : ParseOut) (ops : List Op) : ServerOut :=
  match env.tempFile with
  | .error e =>
    ⟨httpError p.w (ascii "Upstream failed Tempfile: " ++ e) 502, store, ops ++ [.tempFile]⟩
  | .ok tmp =>
    if p.fn ≠ ascii "none" then
      let args := cmdRet ((env.opts.lookup p.fn).getD []) p.width p.height p.srcFileName tmp
      match env.run args with
      | .error e =>
        ⟨httpError p.w (ascii "Upstream failed cmd Run: " ++ e) 502, store,
          ops ++ [.tempFile, .exec args, .removeTemp tmp]⟩
      | .ok out =>
        ⟨serveFile env p.w tmp out, store,
          ops ++ [.tempFile, .exec args, .open_ tmp, .removeTemp tmp]⟩
    else
      ⟨serveFile env p.w p.srcFileName ((store.lookup p.srcFileName).getD []), store,
        ops ++ [.tempFile, .open_ p.srcFileName, .removeTemp tmp]⟩

/-- Lines 138 to 212 of `server`: the cache lookup, the fill on a miss, and
then the transform, for the request that `parseURL` returned. -/
def fetch (env : Env) (store : Store) (p : ParseOut) : ServerOut :=
  match store.lookup p.srcFileName with
  | some _ => transform env store p [.stat p.srcFileName]
  | none =>
    match env.openExclErr p.srcFileName with
    | some e =>
      ⟨httpError p.w (ascii "Upstream failed Open: " ++ e) 502, store,
        [.stat p.srcFileName, .openExcl p.srcFileName]⟩
    | none =>
      let created := (p.srcFileName, []) :: store
      let url := ascii "https://" ++ p.srcPath
      match env.httpGet url with
      | .failed e =>
        ⟨httpError p.w (ascii "Upstream failed Get: " ++ e) 502, created,
          [.stat p.srcFileName, .openExcl p.srcFileName, .get url]⟩
      | .response statusCode status body =>
        if statusCode ≠ 200 then
          ⟨httpError p.w (ascii "Upstream failed HttpStatus: " ++ status) statusCode, created,
            [.stat p.srcFileName, .openExcl p.srcFileName, .get url]⟩
        else
          transform env ((p.srcFileName, body) :: store) p
            [.stat p.srcFileName, .openExcl p.srcFileName, .get url,
              .copy p.srcFileName, .goCheckCache]

/-- The handler `server`, on the request URI `path` and the cache directory
`store` it finds. -/
def server (env : Env) (store : Store) (path : GoString) : Run ServerOut :=
  match path with
  | [] => .panics "index out of range [0] with length 0"
  | c :: _ =>
    if c ≠ byte '/' then
      .returns ⟨httpError .fresh (ascii "Path should start with /") 400, store, []⟩
    else
      match parseURL env.cacheDir .fresh path with
      | .panics reason => .panics reason
      | .returns p =>
        if p.err.isSome then
          .returns ⟨httpError p.w (ascii "Upstream failed Atoi:") 400, store, []⟩
        else .returns (fetch env store p)

/-! ## Vocabulary of the statements -/

/-- The request URI `/<fn>/<width>/<height>/<src>`. -/
def requestPath (fn width height src : GoString) : GoString :=
  byte '/' :: (fn ++ byte '/' :: (width ++ byte '/' :: (height ++ byte '/' :: src)))

/-- A width or height that fails to parse as a base-10 integer, or parses to a
value outside `[1, 5000]`. -/
def dimRejected (s : GoString) : Prop :=
  Atoi s = none ∨ ∃ n : Int, Atoi s = some n ∧ (n < 1 ∨ 5000 < n)

/-- A width or height that parses to an integer in `[1, 5000]`. -/
def dimAccepted (s : GoString) : Prop :=
  ∃ n : Int, Atoi s = some n ∧ 1 ≤ n ∧ n ≤ 5000

/-- The part of a source-URL segment before its first `?`. -/
def beforeQuery (s : GoString) : GoString := s.takeWhile (· ≠ byte '?')

/-- Sample surroundings: cache directory `cache`, a catalog with the single
transform `thumb`, an upstream that answers 404, a tool that succeeds. -/
def sampleEnv : Env where
  cacheDir := ascii "cache"
  opts := [(ascii "thumb", [ascii "-resize {{width}}x{{height}}"])]
  openExclErr := fun _ => none
  httpGet := fun _ => .response 404 (ascii "404 Not Found") []
  tempFile := .ok (ascii "/tmp/thumb1")
  run := fun _ => .ok (ascii "IMG")
  openErr := fun _ => none
  now := ascii "Thu, 01 Jan 1970 00:00:00 GMT"

/-- A cache entry modified at 22:13:21 UTC on 14 November 2023. -/
def olderEntry : FileInfo := ⟨ascii "example.com%2Fa.jpg", 10, 1700000001⟩

/-- A cache entry modified one second after `olderEntry`. -/
def newerEntry : FileInfo := ⟨ascii "example.com%2Fb.jpg", 10, 1700000002⟩

/-- Two sparse files of `2^62` bytes each: their sizes add up to `2^63`, one
more than the largest `int64`. -/
def hugeListing : List FileInfo :=
  [⟨ascii "a", 2 ^ 62, 1700000001⟩, ⟨ascii "b", 2 ^ 62, 1700000002⟩]

/-- Whether the string ends with a byte of class `\s`. -/
def endsWithSpace : GoString → Bool
  | [] => false
  | [c] => isSpace c
  | _ :: d :: rest => endsWithSpace (d :: rest)

/-- The white-space-separated tokens of a string, as the specification words
them: the maximal runs of bytes that are not white space, each token non-empty
and free of white space. -/
def wsTokens : GoString → List GoString
  | [] => []
  | c :: rest =>
    if isSpace c then wsTokens rest
    else if startsWithSpace rest ∨ rest = [] then [c] :: wsTokens rest
    else
      match wsTokens rest with
      | [] => [[c]]
      | p :: ps => (c :: p) :: ps

/-- A template with `{{width}}` and then `{{height}}` replaced, as in the loop
of `server`. -/
def substitute (width height cmdStr : GoString) : GoString :=
  Replace (Replace cmdStr (ascii "{{width}}") width) (ascii "{{height}}") height

/-- The source of a request is at hand for the transform: it is in the cache
already, or the exclusive create succeeds and the upstream answers 200. -/
def sourceReady (env : Env) (store : Store) (p : ParseOut) : Prop :=
  store.lookup p.srcFileName ≠ none ∨
    (env.openExclErr p.srcFileName = none ∧
      ∃ status body, env.httpGet (ascii "https://" ++ p.srcPath) = .response 200 status body)

/-- The upstream fetch of a request fails: `http.Get` returns an error, or a
response whose status code, a code from 100 to 999, is not 200. -/
def fetchFails (env : Env) (p : ParseOut) : Prop :=
  (∃ e, env.httpGet (ascii "https://" ++ p.srcPath) = .failed e) ∨
    (∃ code status body,
      env.httpGet (ascii "https://" ++ p.srcPath) = .response code status body
        ∧ code ≠ 200 ∧ 100 ≤ code ∧ code ≤ 999)

/-- Surroundings as `sampleEnv`, with a network that cannot reach the upstream. -/
def offlineEnv : Env :=
  { sampleEnv with httpGet := fun _ => .failed (ascii "dial tcp: no such host") }

/-- Surroundings as `sampleEnv`, the template of `thumb` written with a leading
space. -/
def spacedEnv : Env :=
  { sampleEnv with opts := [(ascii "thumb", [ascii " -resize {{width}}x{{height}}"])] }

/-- A cache directory that holds the source `example.com/a.jpg`. -/
def warmStore : Store := [(ascii "cache/example.com%2Fa.jpg", ascii "JPEG")]

/-! ## The library models on the examples of their documentation -/

theorem SplitN_examples :
    SplitN (ascii "") (byte '/') 4 = [[]]
    ∧ SplitN (ascii "thumb/100") (byte '/') 4 = [ascii "thumb", ascii "100"]
    ∧ SplitN (ascii "a/b/c/d/e") (byte '/') 4 = [ascii "a", ascii "b", ascii "c", ascii "d/e"]
    ∧ SplitN (ascii "a,b,c,d") (byte ',') 2 = [ascii "a", ascii "b,c,d"] := by
  decide

theorem Atoi_examples :
    Atoi (ascii "5000") = some 5000 ∧ Atoi (ascii "+5") = some 5 ∧ Atoi (ascii "-12") = some (-12)
    ∧ Atoi (ascii "") = none ∧ Atoi (ascii "+") = none ∧ Atoi (ascii "1_0") = none
    ∧ Atoi (ascii "12a") = none ∧ Atoi (ascii " 1") = none
    ∧ Atoi (ascii "9223372036854775807") = some 9223372036854775807
    ∧ Atoi (ascii "9223372036854775808") = none
    ∧ Atoi (ascii "-9223372036854775808") = some (-9223372036854775808) := by
  decide

theorem QueryEscape_examples :
    QueryEscape (ascii "example.com/a.jpg") = ascii "example.com%2Fa.jpg"
    ∧ QueryEscape (ascii "a b~c+%&d") = ascii "a+b~c%2B%25%26d" := by
  decide

theorem Replace_examples :
    Replace (ascii "oink oink oink") (ascii "oink") (ascii "moo") = ascii "moo moo moo"
    ∧ Replace (ascii "aaaa") (ascii "aa") (ascii "b") = ascii "bb"
    ∧ Replace (ascii "-resize {{width}}x{{height}}") (ascii "{{width}}") (ascii "100")
        = ascii "-resize 100x{{height}}" := by
  decide

theorem regexpSplit_examples :
    regexpSplit (ascii "-resize 100x50") = [ascii "-resize", ascii "100x50"]
    ∧ regexpSplit (ascii "a \t\n b") = [ascii "a", ascii "b"]
    ∧ regexpSplit (ascii " a") = [[], ascii "a"]
    ∧ regexpSplit (ascii "a ") = [ascii "a", []]
    ∧ regexpSplit (ascii " ") = [[], []]
    ∧ regexpSplit (ascii "") = [[]] := by
  decide

/-! ## Lemmas on the string functions and on `parseURL` -/

theorem Index_of_not_mem (sep : Byte) (s : GoString) (h : sep ∉ s) : Index s sep = none := by
  induction s with
  | nil => rfl
  | cons c rest ih =>
    have hc : c ≠ sep := fun e => h (e ▸ List.mem_cons_self _ _)
    have hr : sep ∉ rest := fun m => h (List.mem_cons_of_mem _ m)
    simp [Index, hc, ih hr]

theorem Index_append_sep (sep : Byte) (a b : GoString) (h : sep ∉ a) :
    Index (a ++ sep :: b) sep = some a.length := by
  induction a with
  | nil => simp [Index]
  | cons c rest ih =>
    have hc : c ≠ sep := fun e => h (e ▸ List.mem_cons_self _ _)
    have hr : sep ∉ rest := fun m => h (List.mem_cons_of_mem _ m)
    simp [Index, hc, ih hr]

theorem SplitN_step (sep : Byte) (a b : GoString) (n : Nat) (h : sep ∉ a) :
    SplitN (a ++ sep :: b) sep (n + 2) = a :: SplitN b sep (n + 1) := by
  simp [SplitN, Index_append_sep sep a b h]

theorem SplitN_four (fn width height src : GoString) (hfn : byte '/' ∉ fn)
    (hw : byte '/' ∉ width) (hh : byte '/' ∉ height) :
    SplitN (fn ++ byte '/' :: (width ++ byte '/' :: (height ++ byte '/' :: src))) (byte '/') 4
      = [fn, width, height, src] := by
  rw [SplitN_step _ _ _ _ hfn, SplitN_step _ _ _ _ hw, SplitN_step _ _ _ _ hh]
  rfl

theorem parseURL_four (cd : GoString) (w : ResponseWriter) (fn width height src : GoString)
    (hfn : byte '/' ∉ fn) (hw : byte '/' ∉ width) (hh : byte '/' ∉ height) :
    parseURL cd w (requestPath fn width height src) =
      match Atoi width with
      | none => .returns ⟨fn, width, [], [], [], some "strconv.Atoi", w⟩
      | some widthNum =>
        if widthNum ≤ 0 ∨ 5000 < widthNum then
          .returns ⟨fn, width, [], [], [], some "invalid error width",
            httpError w (ascii "Width not specified or invalid") 400⟩
        else
          match Atoi height with
          | none => .returns ⟨fn, width, height, [], [], some "strconv.Atoi", w⟩
          | some heightNum =>
            if heightNum ≤ 0 ∨ 5000 < heightNum then
              .returns ⟨fn, width, height, [], [], some "invalid error height",
                httpError w (ascii "Height not specified or invalid") 400⟩
            else
              .returns ⟨fn, width, height, src,
                cd ++ ascii "/" ++
                  QueryEscape (src.take ((Index src (byte '?')).getD src.length)), none, w⟩ := by
  simp only [parseURL, requestPath, SplitN_four fn width height src hfn hw hh]
  simp

theorem transform_ops_ne_nil (env : Env) (store : Store) (p : ParseOut) (ops : List Op) :
    (transform env store p ops).ops ≠ [] := by
  unfold transform
  split
  · simp
  · split
    · dsimp only
      split <;> simp
    · simp

theorem fetch_ops_ne_nil (env : Env) (store : Store) (p : ParseOut) :
    (fetch env store p).ops ≠ [] := by
  unfold fetch
  split
  · exact transform_ops_ne_nil _ _ _ _
  · split
    · simp
    · dsimp only
      split
      · simp
      · split
        · simp
        · exact transform_ops_ne_nil _ _ _ _

theorem server_rejects_iff (env : Env) (store : Store) (fn width height src : GoString)
    (hfn : byte '/' ∉ fn) (hw : byte '/' ∉ width) (hh : byte '/' ∉ height) :
    ((∃ out, server env store (requestPath fn width height src) = .returns out
        ∧ out.w.status = some 400 ∧ out.ops = [])
      ↔ (dimRejected width ∨ dimRejected height))
    ∧ ∀ out, server env store (requestPath fn width height src) = .returns out →
        out.ops = [] → out.store = store := by
  have hp := parseURL_four env.cacheDir .fresh fn width height src hfn hw hh
  have hs : server env store (requestPath fn width height src) =
      match parseURL env.cacheDir .fresh (requestPath fn width height src) with
      | .panics reason => .panics reason
      | .returns p =>
        if p.err.isSome then
          .returns ⟨httpError p.w (ascii "Upstream failed Atoi:") 400, store, []⟩
        else .returns (fetch env store p) := by
    simp [server, requestPath]
  rw [hs, hp]
  unfold dimRejected
  cases hwa : Atoi width with
  | none => simp [httpError, ResponseWriter.fresh]
  | some wn =>
    by_cases hwr : wn ≤ 0 ∨ 5000 < wn
    · simp only [hwr, if_true]
      simp [httpError, ResponseWriter.fresh]
      left; omega
    · simp only [hwr, if_false]
      cases hha : Atoi height with
      | none => simp [httpError, ResponseWriter.fresh]
      | some hn =>
        by_cases hhr : hn ≤ 0 ∨ 5000 < hn
        · simp only [hhr, if_true]
          simp [httpError, ResponseWriter.fresh]
          right; omega
        · simp only [hhr, if_false]
          simp
          refine ⟨⟨?_, ?_⟩, ?_⟩
          · intro h
            exact absurd h.2 (fetch_ops_ne_nil _ _ _)
          · intro h
            omega
          · intro h
            exact absurd h (fetch_ops_ne_nil _ _ _)

theorem digitsVal_digits (s : GoString) : ∀ (acc n : Nat), digitsVal s acc = some n →
    ∀ c ∈ s, 48 ≤ c.val ∧ c.val ≤ 57 := by
  induction s with
  | nil => intro acc n h; simp [digitsVal] at h
  | cons c rest ih =>
    intro acc n h
    cases rest with
    | nil =>
      simp only [digitsVal] at h
      split at h
      · intro d hd
        simp at hd
        subst hd
        assumption
      · simp at h
    | cons d rest2 =>
      simp only [digitsVal] at h
      split at h
      · rename_i hc
        intro x hx
        rcases List.mem_cons.1 hx with rfl | hx
        · exact hc
        · exact ih _ _ h x hx
      · simp at h

theorem Atoi_no_slash (s : GoString) (n : Int) (h : Atoi s = some n) : byte '/' ∉ s := by
  have h47 : (byte '/').val = 47 := by decide
  cases s with
  | nil => simp
  | cons c rest =>
    simp only [Atoi] at h
    split at h
    · rename_i hc
      split at h
      · rename_i m hm
        intro hmem
        rcases List.mem_cons.1 hmem with e | e
        · rw [hc] at e; exact absurd e (by decide)
        · have := digitsVal_digits _ _ _ hm _ e
          omega
      · simp at h
    · split at h
      · rename_i m hm
        intro hmem
        by_cases hplus : c = byte '+'
        · simp only [hplus, if_true] at hm
          rcases List.mem_cons.1 hmem with e | e
          · rw [hplus] at e; exact absurd e (by decide)
          · have := digitsVal_digits _ _ _ hm _ e
            omega
        · simp only [hplus, if_false] at hm
          have := digitsVal_digits _ _ _ hm _ hmem
          omega
      · simp at h

theorem dimAccepted_no_slash (s : GoString) (h : dimAccepted s) : byte '/' ∉ s := by
  obtain ⟨n, hn, _⟩ := h
  exact Atoi_no_slash s n hn

theorem parseURL_accepted (cd : GoString) (w : ResponseWriter) (fn width height src : GoString)
    (hfn : byte '/' ∉ fn) (hw : dimAccepted width) (hh : dimAccepted height) :
    parseURL cd w (requestPath fn width height src) =
      .returns ⟨fn, width, height, src,
        cd ++ ascii "/" ++ QueryEscape (src.take ((Index src (byte '?')).getD src.length)),
        none, w⟩ := by
  rw [parseURL_four cd w fn width height src hfn (dimAccepted_no_slash _ hw)
    (dimAccepted_no_slash _ hh)]
  obtain ⟨a, ha, ha1, ha2⟩ := hw
  obtain ⟨b, hb, hb1, hb2⟩ := hh
  have hna : ¬ (a ≤ 0 ∨ 5000 < a) := by omega
  have hnb : ¬ (b ≤ 0 ∨ 5000 < b) := by omega
  simp only [ha, hb, hna, hnb, if_false]

theorem server_slash (env : Env) (store : Store) (rest : GoString) (p : ParseOut)
    (hp : parseURL env.cacheDir .fresh (byte '/' :: rest) = .returns p) (he : p.err = none) :
    server env store (byte '/' :: rest) = .returns (fetch env store p) := by
  simp [server, hp, he]

theorem take_Index_append (s q : GoString) (c : Byte) (hs : c ∉ s) :
    (s ++ c :: q).take ((Index (s ++ c :: q) c).getD (s ++ c :: q).length) = s := by
  rw [Index_append_sep c s q hs]
  simp

theorem take_Index_none (s : GoString) (c : Byte) (hs : c ∉ s) :
    s.take ((Index s c).getD s.length) = s := by
  rw [Index_of_not_mem c s hs]
  simp


/-! ## `url.QueryEscape` is injective -/

theorem upperhex_inj (i j : Nat) (hi : i < 16) (hj : j < 16) (h : upperhex i = upperhex j) :
    i = j := by
  have key : ∀ a b : Fin 16, upperhex a.val = upperhex b.val → a = b := by decide
  have := key ⟨i, hi⟩ ⟨j, hj⟩ h
  exact congrArg Fin.val this

theorem QueryEscape_cons_inj (a b : Byte) (as bs : GoString)
    (h : QueryEscape (a :: as) = QueryEscape (b :: bs)) :
    a = b ∧ QueryEscape as = QueryEscape bs := by
  have hplus : shouldEscape (byte '+') = true := by decide
  have hpct : shouldEscape (byte '%') = true := by decide
  have hne : byte '+' ≠ byte '%' := by decide
  simp only [QueryEscape] at h
  by_cases ha : shouldEscape a = true <;> by_cases hb : shouldEscape b = true
  · by_cases ha2 : a = byte ' ' <;> by_cases hb2 : b = byte ' '
    · simp only [ha, hb, ha2, hb2, if_true] at h
      exact ⟨ha2.trans hb2.symm, (List.cons.inj h).2⟩
    · simp only [ha, hb, ha2, hb2, if_true, if_false] at h
      exact absurd (List.cons.inj h).1 hne
    · simp only [ha, hb, ha2, hb2, if_true, if_false] at h
      exact absurd (List.cons.inj h).1.symm hne
    · simp only [ha, hb, ha2, hb2, if_true, if_false] at h
      have h1 := (List.cons.inj h).2
      have h2 := (List.cons.inj h1).2
      have e1 := upperhex_inj _ _ (by omega) (by omega) (List.cons.inj h1).1
      have e2 := upperhex_inj _ _ (Nat.mod_lt _ (by decide)) (Nat.mod_lt _ (by decide))
        (List.cons.inj h2).1
      refine ⟨Fin.ext ?_, (List.cons.inj h2).2⟩
      omega
  · by_cases ha2 : a = byte ' '
    · simp only [ha, hb, ha2, if_true] at h
      have := (List.cons.inj h).1
      rw [← this, hplus] at hb
      exact absurd rfl hb
    · simp only [ha, hb, ha2, if_true, if_false] at h
      have := (List.cons.inj h).1
      rw [← this, hpct] at hb
      exact absurd rfl hb
  · by_cases hb2 : b = byte ' '
    · simp only [ha, hb, hb2, if_true] at h
      have := (List.cons.inj h).1
      rw [this, hplus] at ha
      exact absurd rfl ha
    · simp only [ha, hb, hb2, if_true, if_false] at h
      have := (List.cons.inj h).1
      rw [this, hpct] at ha
      exact absurd rfl ha
  · simp only [ha, hb] at h
    exact ⟨(List.cons.inj h).1, (List.cons.inj h).2⟩

theorem QueryEscape_cons_ne_nil (a : Byte) (as : GoString) : QueryEscape (a :: as) ≠ [] := by
  simp only [QueryEscape]
  split
  · split <;> simp
  · simp

theorem QueryEscape_injective : ∀ s t : GoString, QueryEscape s = QueryEscape t → s = t := by
  intro s
  induction s with
  | nil =>
    intro t h
    cases t with
    | nil => rfl
    | cons b bs => exact absurd h.symm (QueryEscape_cons_ne_nil b bs)
  | cons a as ih =>
    intro t h
    cases t with
    | nil => exact absurd h (QueryEscape_cons_ne_nil a as)
    | cons b bs =>
      obtain ⟨e1, e2⟩ := QueryEscape_cons_inj a b as bs h
      rw [e1, ih bs e2]


/-! ## What a successful `parseURL` returned -/

theorem parseURL_ok_inv (cd : GoString) (w : ResponseWriter) (rest : GoString) (p : ParseOut)
    (h : parseURL cd w (byte '/' :: rest) = .returns p) (he : p.err = none) :
    p.w = w ∧ dimAccepted p.width ∧ dimAccepted p.height
      ∧ (SplitN rest (byte '/') 4).get? 3 = some p.srcPath
      ∧ p.srcFileName = cd ++ ascii "/" ++
          QueryEscape (p.srcPath.take ((Index p.srcPath (byte '?')).getD p.srcPath.length)) := by
  simp only [parseURL, ne_eq, not_true_eq_false, if_false] at h
  split at h
  · simp at h
  split at h
  · simp at h
  split at h
  · simp only [Run.returns.injEq] at h; subst h; simp at he
  split at h
  · simp only [Run.returns.injEq] at h; subst h; simp at he
  split at h
  · simp at h
  split at h
  · simp only [Run.returns.injEq] at h; subst h; simp at he
  split at h
  · simp only [Run.returns.injEq] at h; subst h; simp at he
  split at h
  · simp at h
  simp only [Run.returns.injEq] at h
  subst h
  rename_i _ _ _ _ _ _ wn hwn hwr _ _ _ _ hn hhn hhr _ _ hsrc
  exact ⟨rfl, ⟨wn, hwn, by omega, by omega⟩, ⟨hn, hhn, by omega, by omega⟩, hsrc, rfl⟩


theorem take_Index_eq_beforeQuery (s : GoString) :
    s.take ((Index s (byte '?')).getD s.length) = beforeQuery s := by
  induction s with
  | nil => rfl
  | cons c rest ih =>
    by_cases hc : c = byte '?'
    · simp [Index, beforeQuery, hc]
    · have : (Index (c :: rest) (byte '?')).getD (c :: rest).length
          = (Index rest (byte '?')).getD rest.length + 1 := by
        simp only [Index, hc, if_false]
        cases Index rest (byte '?') <;> simp
      rw [this]
      simp only [List.take_succ_cons, ih]
      simp [beforeQuery, List.takeWhile, hc]

theorem transform_ops (env : Env) (store : Store) (p : ParseOut) (ops : List Op) :
    ∃ tail, (transform env store p ops).ops = ops ++ tail ∧ ∀ url, Op.get url ∉ tail := by
  unfold transform
  split
  · exact ⟨_, rfl, by simp⟩
  · split
    · dsimp only
      split
      · exact ⟨_, rfl, by simp⟩
      · exact ⟨_, rfl, by simp⟩
    · exact ⟨_, rfl, by simp⟩

theorem fetch_get_unique (env : Env) (store : Store) (p : ParseOut) (url : GoString)
    (h : Op.get url ∈ (fetch env store p).ops) : url = ascii "https://" ++ p.srcPath := by
  unfold fetch at h
  split at h
  · obtain ⟨tail, ht, hn⟩ := transform_ops env store p [.stat p.srcFileName]
    rw [ht] at h
    simp at h
    exact absurd h (hn url)
  · split at h
    · simp at h
    · dsimp only at h
      split at h
      · simpa using h
      · split at h
        · simpa using h
        · obtain ⟨tail, ht, hn⟩ := transform_ops env ((p.srcFileName, _) :: store) p
            [.stat p.srcFileName, .openExcl p.srcFileName, .get (ascii "https://" ++ p.srcPath),
              .copy p.srcFileName, .goCheckCache]
          rw [ht] at h
          simp at h
          rcases h with h | h
          · exact h
          · exact absurd h (hn url)

theorem fetch_get_mem (env : Env) (store : Store) (p : ParseOut)
    (hmiss : store.lookup p.srcFileName = none) (hopen : env.openExclErr p.srcFileName = none) :
    Op.get (ascii "https://" ++ p.srcPath) ∈ (fetch env store p).ops := by
  unfold fetch
  rw [hmiss, hopen]
  dsimp only
  split
  · simp
  · split
    · simp
    · obtain ⟨tail, ht, _⟩ := transform_ops env ((p.srcFileName, _) :: store) p
        [.stat p.srcFileName, .openExcl p.srcFileName, .get (ascii "https://" ++ p.srcPath),
          .copy p.srcFileName, .goCheckCache]
      rw [ht]
      simp

/-! ## The claims on `parseURL` -/

/-- C1: for a request path of the four-segment form `/<fn>/<width>/<height>/<src>`,
`server` answers 400 with no operation performed and the cache directory
untouched exactly when the width or the height fails to parse as a base-10
integer or parses to a value outside `[1, 5000]`; `1` and `5000` are accepted,
`0` and `5001` are rejected. -/
theorem server_rejects_exactly_bad_dimensions (env : Env) (store : Store)
    (fn width height src : GoString)
    (hfn : byte '/' ∉ fn) (hw : byte '/' ∉ width) (hh : byte '/' ∉ height) :
    ((∃ out, server env store (requestPath fn width height src) = .returns out
        ∧ out.w.status = some 400 ∧ out.ops = [])
      ↔ (dimRejected width ∨ dimRejected height))
    ∧ (∀ out, server env store (requestPath fn width height src) = .returns out →
        out.ops = [] → out.store = store)
    ∧ ¬ dimRejected (ascii "1") ∧ ¬ dimRejected (ascii "5000")
    ∧ dimRejected (ascii "0") ∧ dimRejected (ascii "5001") := by
  obtain ⟨hiff, hstore⟩ := server_rejects_iff env store fn width height src hfn hw hh
  refine ⟨hiff, hstore, ?_, ?_, ?_, ?_⟩
  · have h : Atoi (ascii "1") = some 1 := by decide
    simp [dimRejected, h]
  · have h : Atoi (ascii "5000") = some 5000 := by decide
    simp [dimRejected, h]
  · have h : Atoi (ascii "0") = some 0 := by decide
    simp [dimRejected, h]
  · have h : Atoi (ascii "5001") = some 5001 := by decide
    simp [dimRejected, h]

/-- Witness of C1: the request `/thumb/5001/50/example.com/a.jpg`. -/
theorem server_rejects_exactly_bad_dimensions_witness :
    (byte '/' ∉ ascii "thumb" ∧ byte '/' ∉ ascii "5001" ∧ byte '/' ∉ ascii "50") ∧
    (((∃ out, server sampleEnv []
          (requestPath (ascii "thumb") (ascii "5001") (ascii "50") (ascii "example.com/a.jpg"))
            = .returns out
        ∧ out.w.status = some 400 ∧ out.ops = [])
      ↔ (dimRejected (ascii "5001") ∨ dimRejected (ascii "50")))
    ∧ (∀ out, server sampleEnv []
          (requestPath (ascii "thumb") (ascii "5001") (ascii "50") (ascii "example.com/a.jpg"))
            = .returns out → out.ops = [] → out.store = [])
    ∧ ¬ dimRejected (ascii "1") ∧ ¬ dimRejected (ascii "5000")
    ∧ dimRejected (ascii "0") ∧ dimRejected (ascii "5001")) :=
  ⟨⟨by decide, by decide, by decide⟩,
    server_rejects_exactly_bad_dimensions sampleEnv [] (ascii "thumb") (ascii "5001")
      (ascii "50") (ascii "example.com/a.jpg") (by decide) (by decide) (by decide)⟩

/-- C2 (the code departs from it): on the paths `/` and `/thumb/100`, which
begin with `/` and have fewer than four segments, `parseURL` neither returns a
request descriptor nor fails with a client error: it panics on the index
`parts[1]`, respectively `parts[2]`, and so does `server`. -/
theorem parseURL_short_path_panics (cacheDir : GoString) (w : ResponseWriter) (env : Env)
    (store : Store) :
    parseURL cacheDir w (ascii "/") = .panics "index out of range [1]"
    ∧ parseURL cacheDir w (ascii "/thumb/100") = .panics "index out of range [2]"
    ∧ server env store (ascii "/") = .panics "index out of range [1]"
    ∧ server env store (ascii "/thumb/100") = .panics "index out of range [2]" := by
  refine ⟨rfl, rfl, rfl, rfl⟩

/-- C3: for a valid request whose fourth segment is `s` or `s?q`, with no `?`
in `s` (further `/` allowed), `parseURL` returns the cache key
`cacheDir/QueryEscape(s)` whatever `q` is, and returns the whole fourth
segment, query included, as the source path; `server` sends its one upstream
GET to `https://` followed by that whole segment. -/
theorem cache_key_ignores_query (cacheDir : GoString) (w : ResponseWriter)
    (fn width height s q : GoString) (hfn : byte '/' ∉ fn)
    (hw : dimAccepted width) (hh : dimAccepted height) (hs : byte '?' ∉ s) :
    parseURL cacheDir w (requestPath fn width height s)
      = .returns ⟨fn, width, height, s, cacheDir ++ ascii "/" ++ QueryEscape s, none, w⟩
    ∧ parseURL cacheDir w (requestPath fn width height (s ++ byte '?' :: q))
      = .returns ⟨fn, width, height, s ++ byte '?' :: q,
          cacheDir ++ ascii "/" ++ QueryEscape s, none, w⟩
    ∧ ∀ (env : Env) (store : Store), env.cacheDir = cacheDir →
        store.lookup (cacheDir ++ ascii "/" ++ QueryEscape s) = none →
        env.openExclErr (cacheDir ++ ascii "/" ++ QueryEscape s) = none →
        ∃ out, server env store (requestPath fn width height (s ++ byte '?' :: q))
            = .returns out
          ∧ Op.get (ascii "https://" ++ (s ++ byte '?' :: q)) ∈ out.ops
          ∧ ∀ url, Op.get url ∈ out.ops → url = ascii "https://" ++ (s ++ byte '?' :: q) := by
  have h1 := parseURL_accepted cacheDir w fn width height s hfn hw hh
  rw [take_Index_none s _ hs] at h1
  have h2 : ∀ w, parseURL cacheDir w (requestPath fn width height (s ++ byte '?' :: q))
      = .returns ⟨fn, width, height, s ++ byte '?' :: q,
          cacheDir ++ ascii "/" ++ QueryEscape s, none, w⟩ := by
    intro w
    have := parseURL_accepted cacheDir w fn width height (s ++ byte '?' :: q) hfn hw hh
    rw [take_Index_append s q _ hs] at this
    exact this
  refine ⟨h1, h2 w, ?_⟩
  intro env store hcd hmiss hopen
  subst hcd
  have hsrv := server_slash env store _ _ (h2 .fresh) rfl
  refine ⟨_, hsrv, ?_, ?_⟩
  · exact fetch_get_mem env store _ hmiss hopen
  · intro url hurl
    exact fetch_get_unique env store _ url hurl

/-- Witness of C3: `/thumb/100/50/example.com/a.jpg?x=1` on an empty cache. -/
theorem cache_key_ignores_query_witness :
    parseURL (ascii "cache") .fresh
        (requestPath (ascii "thumb") (ascii "100") (ascii "50")
          (ascii "example.com/a.jpg" ++ byte '?' :: ascii "x=1"))
      = .returns ⟨ascii "thumb", ascii "100", ascii "50",
          ascii "example.com/a.jpg" ++ byte '?' :: ascii "x=1",
          ascii "cache" ++ ascii "/" ++ QueryEscape (ascii "example.com/a.jpg"), none, .fresh⟩
    ∧ ∃ out, server sampleEnv [] (requestPath (ascii "thumb") (ascii "100") (ascii "50")
          (ascii "example.com/a.jpg" ++ byte '?' :: ascii "x=1")) = .returns out
        ∧ Op.get (ascii "https://" ++ (ascii "example.com/a.jpg" ++ byte '?' :: ascii "x=1"))
            ∈ out.ops :=
  have h := cache_key_ignores_query (ascii "cache") .fresh (ascii "thumb") (ascii "100")
    (ascii "50") (ascii "example.com/a.jpg") (ascii "x=1") (by decide)
    ⟨100, by decide, by decide, by decide⟩ ⟨50, by decide, by decide, by decide⟩ (by decide)
  ⟨h.2.1, (h.2.2 sampleEnv [] rfl rfl rfl).imp (fun _ ho => ⟨ho.1, ho.2.1⟩)⟩

/-- C10: with one cache directory, two requests that `parseURL` accepts and
whose source-URL segments differ before the first `?` get different cache file
names. -/
theorem cache_key_injective (cacheDir : GoString) (w1 w2 : ResponseWriter)
    (rest1 rest2 : GoString) (p1 p2 : ParseOut)
    (h1 : parseURL cacheDir w1 (byte '/' :: rest1) = .returns p1) (e1 : p1.err = none)
    (h2 : parseURL cacheDir w2 (byte '/' :: rest2) = .returns p2) (e2 : p2.err = none)
    (hne : beforeQuery p1.srcPath ≠ beforeQuery p2.srcPath) :
    p1.srcFileName ≠ p2.srcFileName := by
  obtain ⟨_, _, _, _, k1⟩ := parseURL_ok_inv cacheDir w1 rest1 p1 h1 e1
  obtain ⟨_, _, _, _, k2⟩ := parseURL_ok_inv cacheDir w2 rest2 p2 h2 e2
  rw [k1, k2, take_Index_eq_beforeQuery, take_Index_eq_beforeQuery]
  intro h
  exact hne (QueryEscape_injective _ _ (List.append_cancel_left h))

/-- Witness of C10: `example.com/a.jpg?x` and `example.com/b.jpg?x`. -/
theorem cache_key_injective_witness :
    (⟨ascii "thumb", ascii "100", ascii "50", ascii "example.com/a.jpg?x",
        ascii "cache/example.com%2Fa.jpg", none, .fresh⟩ : ParseOut).srcFileName
      ≠ (⟨ascii "none", ascii "7", ascii "9", ascii "example.com/b.jpg?x",
        ascii "cache/example.com%2Fb.jpg", none, .fresh⟩ : ParseOut).srcFileName :=
  cache_key_injective (ascii "cache") .fresh .fresh
    (ascii "thumb/100/50/example.com/a.jpg?x") (ascii "none/7/9/example.com/b.jpg?x") _ _
    (by decide) rfl (by decide) rfl (by decide)


/-! ## checkCache -/

theorem wrap64_id (x : Int) (h0 : -(2 ^ 63) ≤ x) (h1 : x < 2 ^ 63) : wrap64 x = x := by
  unfold wrap64
  omega

theorem wrap64_add (a b : Int) : wrap64 (wrap64 a + b) = wrap64 (a + b) := by
  unfold wrap64
  omega

theorem wrap64_sub (a b : Int) : wrap64 (wrap64 a - b) = wrap64 (a - b) := by
  unfold wrap64
  omega

theorem totalSize_cons (x : FileInfo) (l : List FileInfo) :
    totalSize (x :: l) = x.size + totalSize l := by
  simp [totalSize]

theorem totalSize_nonneg (l : List FileInfo) (h : ∀ f ∈ l, 0 ≤ f.size) : 0 ≤ totalSize l := by
  induction l with
  | nil => simp [totalSize]
  | cons x rest ih =>
    rw [totalSize_cons]
    have := h x (List.mem_cons_self _ _)
    have := ih (fun f hf => h f (List.mem_cons_of_mem _ hf))
    omega

theorem sumSizes_eq (l : List FileInfo) : ∀ a : Int,
    sumSizes l (wrap64 a) = wrap64 (a + totalSize l) := by
  induction l with
  | nil => intro a; simp [sumSizes, totalSize]
  | cons x rest ih =>
    intro a
    simp only [sumSizes]
    rw [wrap64_add, ih, totalSize_cons]
    congr 1
    omega

theorem removeLoop_spec (cacheSize : Int) (hc : 0 ≤ cacheSize) (l : List FileInfo) :
    ∀ sum : Int, sum = wrap64 (totalSize l) →
      ∃ r, removeLoop cacheSize l sum = .returns r ∧ r.removed ++ r.kept = l
        ∧ ((∀ f ∈ l, 0 ≤ f.size) → totalSize l < 2 ^ 63 → totalSize r.kept ≤ cacheSize) := by
  induction l with
  | nil =>
    intro sum hsum
    have h0 : sum = 0 := by rw [hsum]; decide
    have : ¬ cacheSize < sum := by omega
    exact ⟨⟨[], []⟩, by simp [removeLoop, this], rfl, fun _ _ => by simpa [totalSize] using hc⟩
  | cons x rest ih =>
    intro sum hsum
    by_cases hlt : cacheSize < sum
    · have hnext : wrap64 (sum - x.size) = wrap64 (totalSize rest) := by
        rw [hsum, wrap64_sub, totalSize_cons]
        congr 1
        omega
      obtain ⟨r, hr, happ, hbound⟩ := ih _ hnext
      refine ⟨⟨x :: r.removed, r.kept⟩, by simp [removeLoop, hlt, hr], by simp [happ], ?_⟩
      intro hpos htot
      have hx := hpos x (List.mem_cons_self _ _)
      rw [totalSize_cons] at htot
      exact hbound (fun f hf => hpos f (List.mem_cons_of_mem _ hf)) (by omega)
    · refine ⟨⟨[], x :: rest⟩, by simp [removeLoop, hlt], rfl, ?_⟩
      intro hpos htot
      have hnn := totalSize_nonneg _ hpos
      have : sum = totalSize (x :: rest) := by
        rw [hsum]
        exact wrap64_id _ (by omega) htot
      show totalSize (x :: rest) ≤ cacheSize
      omega

theorem sinkLeft_perm (x : FileInfo) (l : List FileInfo) : (sinkLeft x l).Perm (x :: l) := by
  induction l with
  | nil => simp [sinkLeft]
  | cons e rest ih =>
    simp only [sinkLeft]
    split
    · exact ((List.Perm.cons e ih).trans (List.Perm.swap x e rest))
    · exact List.Perm.refl _

theorem foldl_sinkLeft_perm (l : List FileInfo) : ∀ acc : List FileInfo,
    (l.foldl (fun acc x => sinkLeft x acc) acc).Perm (l ++ acc) := by
  induction l with
  | nil => intro acc; simp
  | cons x rest ih =>
    intro acc
    simp only [List.foldl_cons]
    refine (ih _).trans ?_
    refine (List.Perm.append_left rest (sinkLeft_perm x acc)).trans ?_
    simp

theorem sortSort_perm (infos : List FileInfo) : (sortSort infos).Perm infos := by
  unfold sortSort
  refine (List.reverse_perm _).trans ?_
  simpa using foldl_sinkLeft_perm infos []

theorem totalSize_perm (a b : List FileInfo) (h : a.Perm b) : totalSize a = totalSize b := by
  unfold totalSize
  exact (h.map _).sum_eq

theorem evictSorted_spec (cacheSize : Int) (hc : 0 ≤ cacheSize) (sorted : List FileInfo) :
    ∃ r, evictSorted cacheSize sorted = .returns r ∧ r.removed ++ r.kept = sorted
      ∧ ((∀ f ∈ sorted, 0 ≤ f.size) → totalSize sorted < 2 ^ 63 →
          totalSize r.kept ≤ cacheSize) := by
  unfold evictSorted
  apply removeLoop_spec cacheSize hc sorted
  have h := sumSizes_eq sorted 0
  have h0 : wrap64 0 = 0 := by decide
  rw [h0] at h
  simpa using h


/-- C4 (the code departs from it): on a listing of two entries of 10 bytes
modified one second apart, with room for 10 bytes, `checkCache` removes the
entry modified later and keeps the one modified earlier. -/
theorem checkCache_removes_newest :
    checkCache 10 [olderEntry, newerEntry] = .returns ⟨[newerEntry], [olderEntry]⟩
    ∧ olderEntry.modTime < newerEntry.modTime := by
  decide

/-- C5 as stated fails: with two entries of `2^62` bytes and `cacheSize = 2^62`
the sizes are non-negative and one entry fits, yet the `int64` sum wraps to a
negative number, nothing is removed and `2^63` bytes stay in place. -/
theorem checkCache_bound_fails_on_overflow :
    ¬ (∀ (cacheSize : Int) (infos : List FileInfo),
        (∀ f ∈ infos, 0 ≤ f.size) → (∃ f ∈ infos, f.size ≤ cacheSize) →
        ∃ r, checkCache cacheSize infos = .returns r ∧ totalSize r.kept ≤ cacheSize) := by
  intro h
  obtain ⟨r, hr, hle⟩ := h (2 ^ 62) hugeListing (by decide) (by decide)
  have hrun : checkCache (2 ^ 62) hugeListing
      = .returns ⟨[], [⟨ascii "b", 2 ^ 62, 1700000002⟩, ⟨ascii "a", 2 ^ 62, 1700000001⟩]⟩ := by
    decide
  rw [hrun] at hr
  injection hr with hr
  subst hr
  revert hle
  decide

/-- C5, amended: for a listing with non-negative sizes and a `cacheSize` that
at least one entry fits in, `checkCache` returns without indexing past the end
of the listing, having split the sorted listing into the removed entries
followed by the kept ones; and when the sizes add up to less than `2^63` (the
`int64` sum does not overflow) the kept entries total at most `cacheSize`.
The same holds whatever arrangement of the listing `sort.Sort` leaves. -/
theorem checkCache_within_bound (cacheSize : Int) (infos : List FileInfo)
    (hsize : ∀ f ∈ infos, 0 ≤ f.size) (hfit : ∃ f ∈ infos, f.size ≤ cacheSize) :
    (∃ r, checkCache cacheSize infos = .returns r
      ∧ r.removed ++ r.kept = sortSort infos ∧ (r.removed ++ r.kept).Perm infos
      ∧ (totalSize infos < 2 ^ 63 → totalSize r.kept ≤ cacheSize))
    ∧ ∀ sorted : List FileInfo, sorted.Perm infos →
        ∃ r, evictSorted cacheSize sorted = .returns r ∧ r.removed ++ r.kept = sorted
          ∧ (totalSize infos < 2 ^ 63 → totalSize r.kept ≤ cacheSize) := by
  have hc : 0 ≤ cacheSize := by
    obtain ⟨f, hf, hle⟩ := hfit
    have := hsize f hf
    omega
  have key : ∀ sorted : List FileInfo, sorted.Perm infos →
      ∃ r, evictSorted cacheSize sorted = .returns r ∧ r.removed ++ r.kept = sorted
        ∧ (totalSize infos < 2 ^ 63 → totalSize r.kept ≤ cacheSize) := by
    intro sorted hperm
    obtain ⟨r, hr, happ, hbound⟩ := evictSorted_spec cacheSize hc sorted
    refine ⟨r, hr, happ, ?_⟩
    intro htot
    apply hbound
    · intro f hf
      exact hsize f (hperm.subset hf)
    · rw [totalSize_perm _ _ hperm]
      exact htot
  refine ⟨?_, key⟩
  obtain ⟨r, hr, happ, hbound⟩ := key (sortSort infos) (sortSort_perm infos)
  exact ⟨r, hr, happ, happ ▸ sortSort_perm infos, hbound⟩

/-- Witness of C5: three entries of 10, 3 and 4 bytes and room for 5. -/
theorem checkCache_within_bound_witness :
    ∃ r, checkCache 5 [⟨ascii "a", 10, 1⟩, ⟨ascii "b", 3, 2⟩, ⟨ascii "c", 4, 3⟩] = .returns r
      ∧ totalSize r.kept ≤ 5 := by
  obtain ⟨⟨r, h1, _, _, h4⟩, _⟩ := checkCache_within_bound 5
    [⟨ascii "a", 10, 1⟩, ⟨ascii "b", 3, 2⟩, ⟨ascii "c", 4, 3⟩] (by decide) (by decide)
  exact ⟨r, h1, h4 (by decide)⟩

/-! ## Splitting at white space -/

theorem regexpSplit_ne_nil (s : GoString) : regexpSplit s ≠ [] := by
  cases s with
  | nil => simp [regexpSplit]
  | cons c rest =>
    simp only [regexpSplit]
    split
    · simp
    · split
      · split <;> simp
      · simp

theorem regexpSplit_cons (c : Byte) (rest : GoString) :
    ∃ p ps, regexpSplit rest = p :: ps ∧
      regexpSplit (c :: rest) =
        if isSpace c then (if startsWithSpace rest then p :: ps else [] :: p :: ps)
        else (c :: p) :: ps := by
  cases h : regexpSplit rest with
  | nil => exact absurd h (regexpSplit_ne_nil rest)
  | cons p ps =>
    refine ⟨p, ps, rfl, ?_⟩
    simp only [regexpSplit, h]

theorem regexpSplit_head (s : GoString) (p : GoString) (ps : List GoString)
    (h : regexpSplit s = p :: ps) : p = [] ↔ (s = [] ∨ startsWithSpace s = true) := by
  induction s generalizing p ps with
  | nil =>
    simp [regexpSplit] at h
    simp [h.1]
  | cons c rest ih =>
    obtain ⟨q, qs, hq, hc⟩ := regexpSplit_cons c rest
    rw [hc] at h
    have hstart : startsWithSpace (c :: rest) = isSpace c := rfl
    rw [hstart]
    cases hsp : isSpace c with
    | true =>
      simp only [hsp, if_true] at h
      cases hst : startsWithSpace rest with
      | true =>
        simp only [hst, if_true] at h
        obtain ⟨h1, _⟩ := List.cons.inj h
        subst h1
        exact ⟨fun _ => Or.inr rfl, fun _ => (ih q qs hq).2 (Or.inr hst)⟩
      | false =>
        simp only [hst, Bool.false_eq_true, if_false] at h
        obtain ⟨h1, _⟩ := List.cons.inj h
        exact ⟨fun _ => Or.inr rfl, fun _ => h1.symm⟩
    | false =>
      simp only [hsp, Bool.false_eq_true, if_false] at h
      obtain ⟨h1, _⟩ := List.cons.inj h
      subst h1
      simp

theorem regexpSplit_no_space (s : GoString) :
    ∀ t ∈ regexpSplit s, ∀ c ∈ t, isSpace c = false := by
  induction s with
  | nil => simp [regexpSplit]
  | cons c rest ih =>
    obtain ⟨q, qs, hq, hc⟩ := regexpSplit_cons c rest
    rw [hq] at ih
    rw [hc]
    cases hsp : isSpace c with
    | true =>
      simp only [if_true]
      split
      · exact ih
      · intro t ht
        rcases List.mem_cons.1 ht with rfl | ht
        · simp
        · exact ih t ht
    | false =>
      simp only [Bool.false_eq_true, if_false]
      intro t ht
      rcases List.mem_cons.1 ht with rfl | ht
      · intro d hd
        rcases List.mem_cons.1 hd with rfl | hd
        · exact hsp
        · exact ih q (List.mem_cons_self _ _) d hd
      · exact ih t (List.mem_cons_of_mem _ ht)

theorem endsWithSpace_cons (c : Byte) (rest : GoString) (h : rest ≠ []) :
    endsWithSpace (c :: rest) = endsWithSpace rest := by
  cases rest with
  | nil => exact absurd rfl h
  | cons d r => rfl

theorem regexpSplit_tail_nil (s : GoString) (p : GoString) (ps : List GoString)
    (h : regexpSplit s = p :: ps) (hmem : [] ∈ ps) : endsWithSpace s = true := by
  induction s generalizing p ps with
  | nil =>
    simp [regexpSplit] at h
    rw [h.2] at hmem
    simp at hmem
  | cons c rest ih =>
    obtain ⟨q, qs, hq, hc⟩ := regexpSplit_cons c rest
    rw [hc] at h
    have hone : rest = [] → qs = [] := by
      intro e0
      subst e0
      simp [regexpSplit] at hq
      exact hq.2
    cases hsp : isSpace c with
    | true =>
      simp only [hsp, if_true] at h
      cases hst : startsWithSpace rest with
      | true =>
        simp only [hst, if_true] at h
        obtain ⟨_, h2⟩ := List.cons.inj h
        subst h2
        have hne : rest ≠ [] := by
          intro e; rw [e] at hst; simp [startsWithSpace] at hst
        rw [endsWithSpace_cons c rest hne]
        exact ih q qs hq hmem
      | false =>
        simp only [hst, Bool.false_eq_true, if_false] at h
        obtain ⟨_, h2⟩ := List.cons.inj h
        subst h2
        rcases List.mem_cons.1 hmem with e | e
        · rcases (regexpSplit_head rest q qs hq).1 e.symm with e0 | e0
          · subst e0
            simpa [endsWithSpace] using hsp
          · rw [hst] at e0
            exact absurd e0 (by simp)
        · have hne : rest ≠ [] := by
            intro e0
            rw [hone e0] at e
            simp at e
          rw [endsWithSpace_cons c rest hne]
          exact ih q qs hq e
    | false =>
      simp only [hsp, Bool.false_eq_true, if_false] at h
      obtain ⟨_, h2⟩ := List.cons.inj h
      subst h2
      have hne : rest ≠ [] := by
        intro e0
        rw [hone e0] at hmem
        simp at hmem
      rw [endsWithSpace_cons c rest hne]
      exact ih q qs hq hmem

theorem regexpSplit_nil_mem (s : GoString) (h : [] ∈ regexpSplit s) :
    s = [] ∨ startsWithSpace s = true ∨ endsWithSpace s = true := by
  cases hs : regexpSplit s with
  | nil => exact absurd hs (regexpSplit_ne_nil s)
  | cons p ps =>
    rw [hs] at h
    rcases List.mem_cons.1 h with e | e
    · rcases (regexpSplit_head s p ps hs).1 e.symm with h1 | h1
      · exact Or.inl h1
      · exact Or.inr (Or.inl h1)
    · exact Or.inr (Or.inr (regexpSplit_tail_nil s p ps hs e))

theorem regexpSplit_filter (s : GoString) :
    (regexpSplit s).filter (fun t => decide (t ≠ [])) = wsTokens s := by
  induction s with
  | nil => simp [regexpSplit, wsTokens]
  | cons c rest ih =>
    obtain ⟨q, qs, hq, hc⟩ := regexpSplit_cons c rest
    rw [hc]
    rw [hq] at ih
    have hhead := regexpSplit_head rest q qs hq
    cases hsp : isSpace c with
    | true =>
      simp only [hsp, if_true, wsTokens]
      split
      · exact ih
      · rw [List.filter_cons_of_neg (by simp)]
        exact ih
    | false =>
      simp only [hsp, Bool.false_eq_true, if_false, wsTokens]
      rw [List.filter_cons_of_pos (by simp)]
      by_cases hend : startsWithSpace rest = true ∨ rest = []
      · have hq0 : q = [] := hhead.2 (hend.symm)
        subst hq0
        rw [List.filter_cons_of_neg (by simp)] at ih
        simp only [hend, if_true, ih]
      · have hq0 : q ≠ [] := fun e => hend ((hhead.1 e).symm)
        rw [List.filter_cons_of_pos (by simpa using hq0)] at ih
        simp only [hend, if_false, ← ih]

theorem regexpSplit_eq_wsTokens (s : GoString) (h0 : s ≠ [])
    (h1 : startsWithSpace s = false) (h2 : endsWithSpace s = false) :
    regexpSplit s = wsTokens s := by
  rw [← regexpSplit_filter]
  symm
  apply List.filter_eq_self.2
  intro t ht
  have : t ≠ [] := by
    intro e
    subst e
    rcases regexpSplit_nil_mem s ht with h | h | h
    · exact h0 h
    · rw [h1] at h; exact absurd h (by simp)
    · rw [h2] at h; exact absurd h (by simp)
  simpa using this


/-! ## The handler after a successful parse -/

theorem fetch_get_failed (env : Env) (store : Store) (p : ParseOut) (e : GoString)
    (hmiss : store.lookup p.srcFileName = none) (hopen : env.openExclErr p.srcFileName = none)
    (hget : env.httpGet (ascii "https://" ++ p.srcPath) = .failed e) :
    fetch env store p =
      ⟨httpError p.w (ascii "Upstream failed Get: " ++ e) 502, (p.srcFileName, []) :: store,
        [.stat p.srcFileName, .openExcl p.srcFileName, .get (ascii "https://" ++ p.srcPath)]⟩ := by
  simp [fetch, hmiss, hopen, hget]

theorem fetch_bad_status (env : Env) (store : Store) (p : ParseOut)
    (code : Nat) (status body : GoString)
    (hmiss : store.lookup p.srcFileName = none) (hopen : env.openExclErr p.srcFileName = none)
    (hget : env.httpGet (ascii "https://" ++ p.srcPath) = .response code status body)
    (hcode : code ≠ 200) :
    fetch env store p =
      ⟨httpError p.w (ascii "Upstream failed HttpStatus: " ++ status) code,
        (p.srcFileName, []) :: store,
        [.stat p.srcFileName, .openExcl p.srcFileName, .get (ascii "https://" ++ p.srcPath)]⟩ := by
  simp [fetch, hmiss, hopen, hget, hcode]

theorem fetch_ready (env : Env) (store : Store) (p : ParseOut) (h : sourceReady env store p) :
    ∃ store1 ops, fetch env store p = transform env store1 p ops ∧ ∀ args, Op.exec args ∉ ops := by
  rcases h with h | ⟨hopen, status, body, hget⟩
  · cases hl : store.lookup p.srcFileName with
    | none => exact absurd hl h
    | some content =>
      exact ⟨store, [.stat p.srcFileName], by simp [fetch, hl], by simp⟩
  · cases hl : store.lookup p.srcFileName with
    | some content =>
      exact ⟨store, [.stat p.srcFileName], by simp [fetch, hl], by simp⟩
    | none =>
      exact ⟨(p.srcFileName, body) :: store,
        [.stat p.srcFileName, .openExcl p.srcFileName, .get (ascii "https://" ++ p.srcPath),
          .copy p.srcFileName, .goCheckCache], by simp [fetch, hl, hopen, hget], by simp⟩

theorem transform_run (env : Env) (store : Store) (p : ParseOut) (ops : List Op)
    (tmp : GoString) (htmp : env.tempFile = .ok tmp) (hfn : p.fn ≠ ascii "none") :
    transform env store p ops =
      match env.run (cmdRet ((env.opts.lookup p.fn).getD []) p.width p.height p.srcFileName tmp) with
      | .error e =>
        ⟨httpError p.w (ascii "Upstream failed cmd Run: " ++ e) 502, store,
          ops ++ [.tempFile,
            .exec (cmdRet ((env.opts.lookup p.fn).getD []) p.width p.height p.srcFileName tmp),
            .removeTemp tmp]⟩
      | .ok out =>
        ⟨serveFile env p.w tmp out, store,
          ops ++ [.tempFile,
            .exec (cmdRet ((env.opts.lookup p.fn).getD []) p.width p.height p.srcFileName tmp),
            .open_ tmp, .removeTemp tmp]⟩ := by
  simp only [transform, htmp, hfn, ne_eq, not_false_eq_true, if_true]

theorem httpError_status (w : ResponseWriter) (msg : GoString) (code : Nat)
    (hw : w.status = none) : (httpError w msg code).status = some code := by
  simp [httpError, hw]

theorem serveFile_status (env : Env) (w : ResponseWriter) (name content : GoString)
    (hw : w.status = none) :
    (serveFile env w name content).status = some (if env.openErr name = none then 200 else 502) := by
  unfold serveFile
  split
  · rename_i e he
    simp [httpError, hw, he]
  · rename_i he
    simp [hw, he]

theorem expandTemplates_eq (w h : GoString) (ts : List GoString) :
    expandTemplates w h ts = (ts.map (fun t => regexpSplit (substitute w h t))).flatten := by
  induction ts with
  | nil => rfl
  | cons t rest ih => simp [expandTemplates, substitute, ih]


/-! ## The claims on `server` -/

/-- C6 as stated fails: on an empty cache and with the upstream unreachable,
the request `/thumb/100/50/example.com/a.jpg` leaves the empty file of the
exclusive create under its cache key, and the next request for the same source
is served that empty file as a cache hit, with status 200. -/
theorem failed_fetch_is_cached :
    [].lookup (ascii "cache/example.com%2Fa.jpg") = (none : Option GoString)
    ∧ offlineEnv.httpGet (ascii "https://example.com/a.jpg")
        = .failed (ascii "dial tcp: no such host")
    ∧ ∃ out, server offlineEnv [] (ascii "/thumb/100/50/example.com/a.jpg") = .returns out
      ∧ out.w.status = some 502
      ∧ out.store.lookup (ascii "cache/example.com%2Fa.jpg") = some []
      ∧ ∃ next, server offlineEnv out.store (ascii "/none/100/50/example.com/a.jpg")
          = .returns next
        ∧ next.w.status = some 200 ∧ next.w.body = []
        ∧ next.ops = [.stat (ascii "cache/example.com%2Fa.jpg"), .tempFile,
            .open_ (ascii "cache/example.com%2Fa.jpg"), .removeTemp (ascii "/tmp/thumb1")] := by
  refine ⟨by decide, by decide, _, rfl, by decide, by decide, _, rfl, by decide, by decide, ?_⟩
  decide

/-- C6, amended: for a request that misses the cache, whose exclusive create
succeeds and whose upstream fetch then fails (an error of the GET, or a status
other than 200), after `server` returns the cache directory holds under the
request's cache key the empty file the exclusive create made, so a later
lookup of that key reports it present. -/
theorem failed_fetch_leaves_empty_entry (env : Env) (store : Store) (rest : GoString)
    (p : ParseOut) (hp : parseURL env.cacheDir .fresh (byte '/' :: rest) = .returns p)
    (he : p.err = none) (hmiss : store.lookup p.srcFileName = none)
    (hopen : env.openExclErr p.srcFileName = none) (hfail : fetchFails env p) :
    ∃ out, server env store (byte '/' :: rest) = .returns out
      ∧ out.store = (p.srcFileName, []) :: store
      ∧ out.store.lookup p.srcFileName = some [] := by
  refine ⟨_, server_slash env store rest p hp he, ?_⟩
  rcases hfail with ⟨e, hget⟩ | ⟨code, status, body, hget, hcode, _, _⟩
  · rw [fetch_get_failed env store p e hmiss hopen hget]
    simp [List.lookup]
  · rw [fetch_bad_status env store p code status body hmiss hopen hget hcode]
    simp [List.lookup]

/-- Witness of C6: the unreachable upstream of `offlineEnv`, on an empty cache. -/
theorem failed_fetch_leaves_empty_entry_witness :
    ∃ out, server offlineEnv [] (byte '/' :: ascii "thumb/100/50/example.com/a.jpg")
        = .returns out
      ∧ out.store = [(ascii "cache/example.com%2Fa.jpg", [])]
      ∧ out.store.lookup (ascii "cache/example.com%2Fa.jpg") = some [] :=
  failed_fetch_leaves_empty_entry offlineEnv [] (ascii "thumb/100/50/example.com/a.jpg")
    ⟨ascii "thumb", ascii "100", ascii "50", ascii "example.com/a.jpg",
      ascii "cache/example.com%2Fa.jpg", none, .fresh⟩
    (by decide) rfl (by decide) rfl (Or.inl ⟨ascii "dial tcp: no such host", rfl⟩)

/-- C9 as stated fails: on an empty cache, with an upstream that answers 404,
`server` answers 404 and not 502. -/
theorem upstream_404_is_not_502 :
    [].lookup (ascii "cache/example.com%2Fa.jpg") = (none : Option GoString)
    ∧ sampleEnv.httpGet (ascii "https://example.com/a.jpg")
        = .response 404 (ascii "404 Not Found") []
    ∧ ∃ out, server sampleEnv [] (ascii "/thumb/100/50/example.com/a.jpg") = .returns out
      ∧ out.w.status = some 404 ∧ out.w.status ≠ some 502 :=
  ⟨by decide, by decide, _, rfl, by decide, by decide⟩

/-- C9, amended: for a request that misses the cache, whose exclusive create
succeeds and whose upstream GET returns a status code other than 200 (a code
from 100 to 999), `server` answers with that same status code, and a message
that carries the upstream status line. -/
theorem upstream_status_passed_on (env : Env) (store : Store) (rest : GoString)
    (p : ParseOut) (hp : parseURL env.cacheDir .fresh (byte '/' :: rest) = .returns p)
    (he : p.err = none) (hmiss : store.lookup p.srcFileName = none)
    (hopen : env.openExclErr p.srcFileName = none) (code : Nat) (status body : GoString)
    (hget : env.httpGet (ascii "https://" ++ p.srcPath) = .response code status body)
    (hcode : code ≠ 200) (_hlow : 100 ≤ code) (_hhigh : code ≤ 999) :
    ∃ out, server env store (byte '/' :: rest) = .returns out
      ∧ out.w.status = some code
      ∧ out.w.body = ascii "Upstream failed HttpStatus: " ++ status ++ ascii "\n" := by
  refine ⟨_, server_slash env store rest p hp he, ?_⟩
  obtain ⟨hw, _⟩ := parseURL_ok_inv env.cacheDir .fresh rest p hp he
  rw [fetch_bad_status env store p code status body hmiss hopen hget hcode]
  simp [httpError, hw, ResponseWriter.fresh]

/-- Witness of C9: the upstream of `sampleEnv`, which answers 404. -/
theorem upstream_status_passed_on_witness :
    ∃ out, server sampleEnv [] (byte '/' :: ascii "thumb/100/50/example.com/a.jpg")
        = .returns out
      ∧ out.w.status = some 404
      ∧ out.w.body = ascii "Upstream failed HttpStatus: " ++ ascii "404 Not Found" ++ ascii "\n" :=
  upstream_status_passed_on sampleEnv [] (ascii "thumb/100/50/example.com/a.jpg")
    ⟨ascii "thumb", ascii "100", ascii "50", ascii "example.com/a.jpg",
      ascii "cache/example.com%2Fa.jpg", none, .fresh⟩
    (by decide) rfl (by decide) rfl 404 (ascii "404 Not Found") [] rfl (by decide)
    (by decide) (by decide)


theorem server_exec (env : Env) (store : Store) (rest : GoString) (p : ParseOut)
    (tmp : GoString) (hp : parseURL env.cacheDir .fresh (byte '/' :: rest) = .returns p)
    (he : p.err = none) (hfn : p.fn ≠ ascii "none") (hsrc : sourceReady env store p)
    (htmp : env.tempFile = .ok tmp) :
    ∃ out, server env store (byte '/' :: rest) = .returns out
      ∧ Op.exec (cmdRet ((env.opts.lookup p.fn).getD []) p.width p.height p.srcFileName tmp)
          ∈ out.ops
      ∧ (∀ args, Op.exec args ∈ out.ops →
          args = cmdRet ((env.opts.lookup p.fn).getD []) p.width p.height p.srcFileName tmp)
      ∧ ((∃ e, env.run (cmdRet ((env.opts.lookup p.fn).getD []) p.width p.height
            p.srcFileName tmp) = .error e) → out.w.status = some 502)
      ∧ (∀ img, env.run (cmdRet ((env.opts.lookup p.fn).getD []) p.width p.height
            p.srcFileName tmp) = .ok img →
          out.w.status = some (if env.openErr tmp = none then 200 else 502)
          ∧ (env.openErr tmp = none → out.w.body = img)) := by
  refine ⟨_, server_slash env store rest p hp he, ?_⟩
  obtain ⟨hw, _⟩ := parseURL_ok_inv env.cacheDir .fresh rest p hp he
  have hst : p.w.status = none := by rw [hw]; rfl
  have hbody : p.w.body = [] := by rw [hw]; rfl
  obtain ⟨store1, ops, hfetch, hops⟩ := fetch_ready env store p hsrc
  rw [hfetch, transform_run env store1 p ops tmp htmp hfn]
  cases hrun : env.run (cmdRet ((env.opts.lookup p.fn).getD []) p.width p.height
      p.srcFileName tmp) with
  | error e =>
    refine ⟨by simp, ?_, fun _ => httpError_status _ _ _ hst, fun img h => by simp at h⟩
    intro args hargs
    simp only [List.mem_append, List.mem_cons, List.mem_singleton, Op.exec.injEq,
      reduceCtorEq, false_or, or_false, List.not_mem_nil] at hargs
    rcases hargs with h | h
    · exact absurd h (hops args)
    · exact h
  | ok img =>
    refine ⟨by simp, ?_, fun ⟨e, h⟩ => by simp at h, ?_⟩
    · intro args hargs
      simp only [List.mem_append, List.mem_cons, List.mem_singleton, Op.exec.injEq,
        reduceCtorEq, false_or, or_false, List.not_mem_nil] at hargs
      rcases hargs with h | h
      · exact absurd h (hops args)
      · exact h
    · intro img2 h2
      simp only [Except.ok.injEq] at h2
      subst h2
      refine ⟨serveFile_status env p.w tmp img hst, ?_⟩
      intro hopen
      simp [serveFile, hopen, hbody]

/-- C8 as stated fails: with the source in the cache and a tool that succeeds,
the request `/nothere/100/50/example.com/a.jpg`, whose transform name is
neither `none` nor in the catalog, is answered 200 with the tool's output. -/
theorem unknown_transform_answers_200 :
    sampleEnv.opts.lookup (ascii "nothere") = none
    ∧ ∃ out, server sampleEnv warmStore (ascii "/nothere/100/50/example.com/a.jpg")
        = .returns out
      ∧ out.w.status = some 200 ∧ out.w.status ≠ some 502 ∧ out.w.body = ascii "IMG"
      ∧ Op.exec [ascii "OMP_NUM_THREADS=1", ascii "convert",
          ascii "cache/example.com%2Fa.jpg", ascii "/tmp/thumb1"] ∈ out.ops := by
  refine ⟨by decide, _, rfl, by decide, by decide, by decide, ?_⟩
  decide

/-- C8, amended: for a valid request whose transform name is not `none` and is
not a key of the catalog, once the source is at hand and the scratch file is
created, `server` runs the tool with no template argument at all
(`OMP_NUM_THREADS=1 convert <source> <scratch>`); it answers 502 when that run
fails or the scratch file cannot be opened, and 200 with the tool's output
when the run succeeds. -/
theorem unknown_transform_runs_bare_tool (env : Env) (store : Store) (rest : GoString)
    (p : ParseOut) (tmp : GoString)
    (hp : parseURL env.cacheDir .fresh (byte '/' :: rest) = .returns p) (he : p.err = none)
    (hfn : p.fn ≠ ascii "none") (hcat : env.opts.lookup p.fn = none)
    (hsrc : sourceReady env store p) (htmp : env.tempFile = .ok tmp) :
    ∃ out, server env store (byte '/' :: rest) = .returns out
      ∧ Op.exec [ascii "OMP_NUM_THREADS=1", ascii "convert", p.srcFileName, tmp] ∈ out.ops
      ∧ ((∃ e, env.run [ascii "OMP_NUM_THREADS=1", ascii "convert", p.srcFileName, tmp]
            = .error e) → out.w.status = some 502)
      ∧ (∀ img, env.run [ascii "OMP_NUM_THREADS=1", ascii "convert", p.srcFileName, tmp]
            = .ok img →
          out.w.status = some (if env.openErr tmp = none then 200 else 502)
          ∧ (env.openErr tmp = none → out.w.body = img)) := by
  obtain ⟨out, h1, h2, _, h4, h5⟩ := server_exec env store rest p tmp hp he hfn hsrc htmp
  have hcmd : cmdRet ((env.opts.lookup p.fn).getD []) p.width p.height p.srcFileName tmp
      = [ascii "OMP_NUM_THREADS=1", ascii "convert", p.srcFileName, tmp] := by
    rw [hcat]
    rfl
  rw [hcmd] at h2 h4 h5
  exact ⟨out, h1, h2, h4, h5⟩

/-- Witness of C8: the request `/nothere/100/50/example.com/a.jpg` on a warm
cache, with the tool of `sampleEnv`, which succeeds. -/
theorem unknown_transform_runs_bare_tool_witness :
    ∃ out, server sampleEnv warmStore (byte '/' :: ascii "nothere/100/50/example.com/a.jpg")
        = .returns out
      ∧ Op.exec [ascii "OMP_NUM_THREADS=1", ascii "convert",
          ascii "cache/example.com%2Fa.jpg", ascii "/tmp/thumb1"] ∈ out.ops
      ∧ out.w.status = some 200 := by
  obtain ⟨out, h1, h2, _, h4⟩ := unknown_transform_runs_bare_tool sampleEnv warmStore
    (ascii "nothere/100/50/example.com/a.jpg")
    ⟨ascii "nothere", ascii "100", ascii "50", ascii "example.com/a.jpg",
      ascii "cache/example.com%2Fa.jpg", none, .fresh⟩ (ascii "/tmp/thumb1")
    (by decide) rfl (by decide) (by decide) (Or.inl (by decide)) rfl
  exact ⟨out, h1, h2, (h4 (ascii "IMG") rfl).1⟩


/-- C7 as stated fails: with the template ` -resize {{width}}x{{height}}`,
which begins with a space, the arguments handed to the tool after the fixed
prefix start with an empty string, a token that is not one of the
white-space-separated tokens `-resize` and `100x50` of the template. -/
theorem leading_space_gives_empty_argument :
    wsTokens (substitute (ascii "100") (ascii "50") (ascii " -resize {{width}}x{{height}}"))
      = [ascii "-resize", ascii "100x50"]
    ∧ ∃ out, server spacedEnv warmStore (ascii "/thumb/100/50/example.com/a.jpg")
        = .returns out
      ∧ out.ops = [.stat (ascii "cache/example.com%2Fa.jpg"), .tempFile,
          .exec [ascii "OMP_NUM_THREADS=1", ascii "convert", [], ascii "-resize",
            ascii "100x50", ascii "cache/example.com%2Fa.jpg", ascii "/tmp/thumb1"],
          .open_ (ascii "/tmp/thumb1"), .removeTemp (ascii "/tmp/thumb1")] := by
  refine ⟨by decide, _, rfl, ?_⟩
  decide

/-- C7, amended: for a valid request with a transform name other than `none`,
once the source is at hand and the scratch file `tmp` is created, the one
argument list `server` hands to the tool is the fixed prefix
`OMP_NUM_THREADS=1 convert`, then for each template of the catalog entry, in
order, the pieces of the substituted template between its maximal runs of
white space (tab, line feed, form feed, carriage return, space), then the
source path and `tmp`.  Every piece is free of white space; the non-empty
pieces are exactly the white-space-separated tokens; an empty piece arises
only from a template that is empty or begins or ends with white space, and
for any other template the pieces are the tokens themselves.  The template
`-resize {{width}}x{{height}}` with 100 and 50 gives `-resize 100x50 src tmp`. -/
theorem tool_arguments (env : Env) (store : Store) (rest : GoString) (p : ParseOut)
    (tmp : GoString) (hp : parseURL env.cacheDir .fresh (byte '/' :: rest) = .returns p)
    (he : p.err = none) (hfn : p.fn ≠ ascii "none") (hsrc : sourceReady env store p)
    (htmp : env.tempFile = .ok tmp) :
    (∃ out, server env store (byte '/' :: rest) = .returns out
      ∧ Op.exec ([ascii "OMP_NUM_THREADS=1", ascii "convert"]
          ++ ((env.opts.lookup p.fn).getD []).flatMap
              (fun t => regexpSplit (substitute p.width p.height t))
          ++ [p.srcFileName, tmp]) ∈ out.ops
      ∧ ∀ args, Op.exec args ∈ out.ops →
          args = [ascii "OMP_NUM_THREADS=1", ascii "convert"]
            ++ ((env.opts.lookup p.fn).getD []).flatMap
                (fun t => regexpSplit (substitute p.width p.height t))
            ++ [p.srcFileName, tmp])
    ∧ (∀ s : GoString,
        (∀ t ∈ regexpSplit s, ∀ c ∈ t, isSpace c = false)
        ∧ (regexpSplit s).filter (fun t => decide (t ≠ [])) = wsTokens s
        ∧ ([] ∈ regexpSplit s → s = [] ∨ startsWithSpace s = true ∨ endsWithSpace s = true)
        ∧ (s ≠ [] → startsWithSpace s = false → endsWithSpace s = false →
            regexpSplit s = wsTokens s))
    ∧ (∀ src scratch : GoString,
        cmdRet [ascii "-resize {{width}}x{{height}}"] (ascii "100") (ascii "50") src scratch
          = [ascii "OMP_NUM_THREADS=1", ascii "convert", ascii "-resize", ascii "100x50",
              src, scratch]) := by
  refine ⟨?_, ?_, ?_⟩
  · obtain ⟨out, h1, h2, h3, _⟩ := server_exec env store rest p tmp hp he hfn hsrc htmp
    have hcmd : cmdRet ((env.opts.lookup p.fn).getD []) p.width p.height p.srcFileName tmp
        = [ascii "OMP_NUM_THREADS=1", ascii "convert"]
          ++ ((env.opts.lookup p.fn).getD []).flatMap
              (fun t => regexpSplit (substitute p.width p.height t))
          ++ [p.srcFileName, tmp] := by
      simp only [cmdRet, expandTemplates_eq, List.flatMap]
    rw [hcmd] at h2 h3
    exact ⟨out, h1, h2, h3⟩
  · intro s
    exact ⟨regexpSplit_no_space s, regexpSplit_filter s, regexpSplit_nil_mem s,
      regexpSplit_eq_wsTokens s⟩
  · intro src scratch
    rfl

/-- Witness of C7: the request `/thumb/100/50/example.com/a.jpg` on a warm
cache, with the catalog of `sampleEnv`. -/
theorem tool_arguments_witness :
    ∃ out, server sampleEnv warmStore (byte '/' :: ascii "thumb/100/50/example.com/a.jpg")
        = .returns out
      ∧ Op.exec [ascii "OMP_NUM_THREADS=1", ascii "convert", ascii "-resize", ascii "100x50",
          ascii "cache/example.com%2Fa.jpg", ascii "/tmp/thumb1"] ∈ out.ops := by
  obtain ⟨⟨out, h1, h2, _⟩, _⟩ := tool_arguments sampleEnv warmStore
    (ascii "thumb/100/50/example.com/a.jpg")
    ⟨ascii "thumb", ascii "100", ascii "50", ascii "example.com/a.jpg",
      ascii "cache/example.com%2Fa.jpg", none, .fresh⟩ (ascii "/tmp/thumb1")
    (by decide) rfl (by decide) (Or.inl (by decide)) rfl
  exact ⟨out, h1, h2⟩

end Imagemagickd
